import Mathlib

/-!
Verification development for the DBTui PostgreSQL terminal client
(`db.go`, `ui.go`, `main.go`).  The Go source is shallowly embedded:
pure helpers (`pgIdent`, `hasMultipleStatements`, the cell stringify
rule) become Lean functions on `String`/`List Char`; the stateful
operations (`runQueryInto`, `runAdhocQuery`, `previewTable`,
`loadColumns`, `loadTables`, `loadSchemas`, the list-selection
callbacks of `initUI`) become explicit state-passing functions over an
`AppState` record, parametrised by the database engine's response so
that every code path (success, query error, mid-iteration scan error,
terminal cursor error) is represented.  The 3-second toast revert of
`ui.go` is modelled separately with discrete time.
-/

set_option maxHeartbeats 1000000

namespace DBTui

/-! ### Character classes and string helpers -/

/-- Whitespace class `\s` of Go's RE2 regexp engine: `[\t\n\f\r ]`.
This is the class used by the `multiStmtRe` regexp in `db.go`. -/
def reSpace (c : Char) : Bool :=
  decide (c = '\t' ∨ c = '\n' ∨ c = Char.ofNat 12 ∨ c = '\r' ∨ c = ' ')

/-- Unicode white space as Go's `unicode.IsSpace` reports it (the
`White_Space` property): used by `strings.TrimSpace` in
`runAdhocQuery`.  Note `\v` (0x0B) and U+0085/U+00A0 are included here
but are NOT in the regexp class `reSpace`. -/
def goUnicodeSpace (c : Char) : Bool :=
  decide (c = ' ' ∨ ('\t' ≤ c ∧ c ≤ Char.ofNat 13) ∨ c = Char.ofNat 0x85 ∨
    c = Char.ofNat 0xA0 ∨ c = Char.ofNat 0x1680 ∨
    (Char.ofNat 0x2000 ≤ c ∧ c ≤ Char.ofNat 0x200A) ∨ c = Char.ofNat 0x2028 ∨
    c = Char.ofNat 0x2029 ∨ c = Char.ofNat 0x202F ∨ c = Char.ofNat 0x205F ∨
    c = Char.ofNat 0x3000)

/-- Go `strings.TrimSpace`: drop leading and trailing Unicode white space. -/
def trimSpace (s : String) : String :=
  String.mk (((s.data.dropWhile goUnicodeSpace).reverse.dropWhile goUnicodeSpace).reverse)

/-- The Statement Guard of `db.go`:
`multiStmtRe = regexp.MustCompile(";\\s*[^\\s]")` and
`hasMultipleStatements(q) = multiStmtRe.FindStringIndex(q) != nil`.
The regexp finds a match iff some `;` in the text is followed, after a
(possibly empty) run of `\s` characters, by a non-`\s` character; the
characters between a `;` and the first later non-`\s` character are
necessarily all `\s`, so the regexp matches iff some `;` has any
non-`\s` character somewhere after it, which is what this recursion
computes. -/
def hasMultipleStatements : List Char → Bool
  | [] => false
  | c :: rest =>
      (decide (c = ';') && rest.any (fun d => !reSpace d)) || hasMultipleStatements rest

/-- Spec-side reading of the Statement Guard sentence, written from the
spec's words: the text contains a semicolon followed, after optional
whitespace (the Guard's whitespace class), by a non-whitespace
character. -/
def specMultiStatement (l : List Char) : Prop :=
  ∃ pre ws c post, l = pre ++ ';' :: (ws ++ c :: post) ∧
    (∀ w ∈ ws, reSpace w = true) ∧ reSpace c = false

/-! ### Identifier Quoter (`pgIdent` in `db.go`) -/

/-- First character class of `^[a-z_][a-z0-9_]*$`. -/
def isLowerStart (c : Char) : Bool := decide (('a' ≤ c ∧ c ≤ 'z') ∨ c = '_')

/-- Continuation character class of `^[a-z_][a-z0-9_]*$`. -/
def isLowerCont (c : Char) : Bool := isLowerStart c || decide ('0' ≤ c ∧ c ≤ '9')

/-- Whole-string match of the anchored regexp `^[a-z_][a-z0-9_]*$`
used by `pgIdent`. -/
def matchesLowerIdent (s : String) : Bool :=
  match s.data with
  | [] => false
  | c :: rest => isLowerStart c && rest.all isLowerCont

/-- Go `strings.ReplaceAll(name, quote, quote-quote)`: double every
embedded double quote. -/
def escapeQuotes : List Char → List Char
  | [] => []
  | c :: rest => if c = '"' then '"' :: '"' :: escapeQuotes rest else c :: escapeQuotes rest

/-- Every double quote in the list occurs as part of an adjacent pair. -/
def doubledQuotes : List Char → Bool
  | [] => true
  | c :: rest =>
      if c = '"' then
        match rest with
        | [] => false
        | d :: rest2 => if d = '"' then doubledQuotes rest2 else false
      else doubledQuotes rest

/-- The Identifier Quoter `pgIdent` of `db.go`: empty input unchanged;
an already valid unquoted lowercase identifier unchanged; otherwise
wrapped in double quotes with embedded double quotes doubled
(the Go code builds `"\"" + ReplaceAll(name, "\"", "\"\"") + "\""`,
whose character list is exactly the one constructed here). -/
def pgIdent (s : String) : String :=
  if s = "" then s
  else if matchesLowerIdent s then s
  else String.mk ('"' :: (escapeQuotes s.data ++ ['"']))

/-! ### Result Materializer cell rule (`runQueryInto` loop body) -/

/-- A database value as `rows.Values()` hands it to the materializer:
either SQL NULL (Go `nil`) or a non-nil value carrying its default
textual representation (what `fmt.Sprint(v)` produces for it). -/
inductive GoValue
  | nil
  | val (repr : String)
deriving DecidableEq

/-- Cell stringify rule of `runQueryInto`: `nil` becomes the literal
string NULL, any other value its `fmt.Sprint` representation. -/
def stringifyVal : GoValue → String
  | GoValue.nil => "NULL"
  | GoValue.val r => r

/-- The `cells` array built for one row in `runQueryInto`. -/
def materializeCells (vals : List GoValue) : List String :=
  vals.map stringifyVal

/-- Cell texts written by `setHeader` in `db.go`: column 0 is
space-name-space, later columns get a leading bar separator. -/
def setHeaderTexts : List String → List String
  | [] => []
  | h :: rest => (" " ++ h ++ " ") :: rest.map (fun x => " | " ++ x ++ " ")

/-- Cell texts written by `setRow` in `db.go`: column 0 verbatim, later
columns get a leading bar separator. -/
def setRowTexts : List String → List String
  | [] => []
  | v :: rest => v :: rest.map (fun x => " | " ++ x)

/-! ### Application state -/

/-- A notification posted through `toast` in `ui.go`, tagged by the
call site that posts it (the format string used there). -/
inductive Note
  | queryError (msg : String)
  | rowError (msg : String)
  | rowsErr (msg : String)
  | success (rows : Nat)
  | multiStmt
  | loadTablesError (msg : String)
  | loadColumnsError (msg : String)
  | scanError (msg : String)
  | refreshed
deriving DecidableEq

/-- The display and navigation state of `AppState` (main.go) as the
operations of `db.go`/`ui.go` observe and mutate it.  Widget contents
are modelled by their cell texts; `issued` logs every call to
`pool.Query` as (sql, arguments); `notes` logs every toast posted. -/
structure AppState where
  currentSchema : String := ""
  currentTable : String := ""
  schemaItems : List String := []
  tableItems : List String := []
  columnRows : List (List String) := []
  resultRows : List (List String) := []
  previewLimit : Int := 100
  issued : List (String × List String) := []
  notes : List Note := []
deriving DecidableEq

/-- The state right after `main` constructs `AppState` with the default
preview limit of 100. -/
def initState : AppState := {}

/-- The `toast` side effect as the rest of the code sees it: a
notification is posted (its display and delayed revert are modelled
below with explicit time for the Notification Coordinator claims). -/
def toast (n : Note) (st : AppState) : AppState :=
  { st with notes := st.notes ++ [n] }

/-! ### Query Executor (`runQueryInto` in `db.go`) -/

/-- One `rows.Next`/`rows.Values` step of the row cursor: either a
decoded row or a row-level decode failure (which aborts iteration). -/
inductive RowStep
  | ok (vals : List GoValue)
  | err (msg : String)
deriving DecidableEq

/-- The engine's answer to one `pool.Query` call in `runQueryInto`:
either an immediate failure (connection error, SQL error, deadline
exceeded, cancellation) or a cursor with field descriptions, row
steps, and the terminal `rows.Err()` value. -/
inductive QueryResponse
  | fail (msg : String)
  | ok (headers : List String) (steps : List RowStep) (finalErr : Option String)
deriving DecidableEq

/-- The row loop of `runQueryInto`: paints decoded rows into the result
table one by one; a row-level error toasts and returns at once
(leaving the rows already painted); after exhausting the cursor,
`rows.Err()` is checked, and otherwise a success toast reports the row
count. -/
def runRows : List RowStep → Option String → Nat → AppState → AppState
  | [], finalErr, n, st =>
      match finalErr with
      | some e => toast (Note.rowsErr e) st
      | none => toast (Note.success n) st
  | RowStep.err m :: _, _, _, st => toast (Note.rowError m) st
  | RowStep.ok vals :: rest, finalErr, n, st =>
      runRows rest finalErr (n + 1)
        { st with resultRows := st.resultRows ++ [setRowTexts (materializeCells vals)] }

/-- `runQueryInto` of `db.go` (both call sites pass `s.resultTable` as
the target, so the painted table is the result pane): issue the query;
on failure toast and return with the display untouched; on success
clear the table, write the header row, then run the row loop. -/
def runQueryInto (q : String) (resp : QueryResponse) (st : AppState) : AppState :=
  let st1 := { st with issued := st.issued ++ [(q, ([] : List String))] }
  match resp with
  | QueryResponse.fail m => toast (Note.queryError m) st1
  | QueryResponse.ok hdrs steps finalErr =>
      runRows steps finalErr 0 { st1 with resultRows := [setHeaderTexts hdrs] }

/-- The preview query string built by `previewTable`:
`fmt.Sprintf("SELECT * FROM %s LIMIT %d", pgIdent(schema)+"."+pgIdent(table), limit)`. -/
def previewQuery (schema table : String) (limit : Int) : String :=
  "SELECT * FROM " ++ pgIdent schema ++ "." ++ pgIdent table ++ " LIMIT " ++ toString limit

/-- `previewTable` of `db.go`. -/
def previewTable (schema table : String) (resp : QueryResponse) (st : AppState) : AppState :=
  runQueryInto (previewQuery schema table st.previewLimit) resp st

/-- `runAdhocQuery` of `db.go`: trim the input; a blank input is a
no-op; a trimmed input the Statement Guard classifies as
multi-statement is refused with a toast; otherwise the trimmed text is
executed. -/
def runAdhocQuery (q : String) (resp : QueryResponse) (st : AppState) : AppState :=
  let t := trimSpace q
  if t = "" then st
  else if hasMultipleStatements t.data then toast Note.multiStmt st
  else runQueryInto t resp st

/-! ### Catalog Navigator (`loadSchemas`, `loadTables`, `loadColumns`,
and the list-selection callbacks wired up in `initUI`) -/

/-- The schema catalog query text of `loadSchemas` (whitespace of the Go
raw-string literal normalised to single spaces). -/
def schemataSQL : String :=
  "SELECT schema_name FROM information_schema.schemata WHERE schema_name NOT IN ('pg_toast', 'pg_temp_1', 'pg_toast_temp_1') ORDER BY schema_name"

/-- The table catalog query text of `loadTables`. -/
def tablesSQL : String :=
  "SELECT table_name FROM information_schema.tables WHERE table_schema = $1 AND table_type = 'BASE TABLE' ORDER BY table_name"

/-- The column catalog query text of `loadColumns`. -/
def columnsSQL : String :=
  "SELECT column_name, data_type, is_nullable FROM information_schema.columns WHERE table_schema = $1 AND table_name = $2 ORDER BY ordinal_position"

/-- The system-internal schemas excluded by the `NOT IN` clause of
`schemataSQL`. -/
def excludedSchemas : List String := ["pg_toast", "pg_temp_1", "pg_toast_temp_1"]

deriving instance DecidableEq for Except

/-- The scan loops of `loadSchemas`/`loadTables`: collect row values
until the first `rows.Scan` error, which aborts the whole collection. -/
def collectNames : List (Except String String) → Except String (List String)
  | [] => Except.ok []
  | Except.error m :: _ => Except.error m
  | Except.ok n :: rest =>
      match collectNames rest with
      | Except.error m => Except.error m
      | Except.ok ns => Except.ok (n :: ns)

/-- Engine response to the `tablesSQL` query: failure, or the row
stream (each step a scanned name or a scan error). `loadTables` never
checks `rows.Err()`, so no terminal error is modelled for it. -/
inductive TablesResp
  | fail (msg : String)
  | rows (steps : List (Except String String))
deriving DecidableEq

/-- Engine response to the `columnsSQL` query. `loadColumns` never
checks `rows.Err()` either. -/
inductive ColsResp
  | fail (msg : String)
  | rows (steps : List (Except String (String × String × String)))
deriving DecidableEq

/-- Engine response to the `schemataSQL` query, with the terminal
`rows.Err()` value that `loadSchemas` returns at the end. -/
inductive SchemasResp
  | fail (msg : String)
  | rows (steps : List (Except String String)) (finalErr : Option String)
deriving DecidableEq

/-- The column-painting loop of `loadColumns`: one `setRow` per
successfully scanned row; a scan error toasts and returns, keeping the
rows painted so far. -/
def paintCols : List (Except String (String × String × String)) → AppState → AppState
  | [], st => st
  | Except.error m :: _, st => toast (Note.scanError m) st
  | Except.ok (n, t, nu) :: rest, st =>
      paintCols rest { st with columnRows := st.columnRows ++ [setRowTexts [n, t, nu]] }

/-- `loadColumns` of `db.go`: issue the column query; on failure toast
and return; otherwise clear the column pane, write its header, and
paint the scanned rows. -/
def loadColumns (schema table : String) (cR : ColsResp) (st : AppState) : AppState :=
  let st1 := { st with issued := st.issued ++ [(columnsSQL, [schema, table])] }
  match cR with
  | ColsResp.fail m => toast (Note.loadColumnsError m) st1
  | ColsResp.rows steps =>
      paintCols steps { st1 with columnRows := [setHeaderTexts ["Column", "Type", "Nullable"]] }

/-- `loadTables` of `db.go`: issue the table query; on failure toast and
return; otherwise clear the table list, collect the names (a scan
error toasts and returns with the list left cleared), populate the
list, and if non-empty auto-select the first table -- setting
`currentTable` and triggering `loadColumns` and `previewTable` -- else
clear the column and result panes.  `currentTable` is never cleared on
the failure or empty paths. -/
def loadTables (schema : String) (tR : TablesResp) (cR : ColsResp) (pR : QueryResponse)
    (st : AppState) : AppState :=
  let st1 := { st with issued := st.issued ++ [(tablesSQL, [schema])] }
  match tR with
  | TablesResp.fail m => toast (Note.loadTablesError m) st1
  | TablesResp.rows steps =>
      let st2 := { st1 with tableItems := [] }
      match collectNames steps with
      | Except.error m => toast (Note.scanError m) st2
      | Except.ok tables =>
          let st3 := { st2 with tableItems := tables }
          match tables with
          | [] => { st3 with columnRows := [], resultRows := [] }
          | t :: _ =>
              let st4 := { st3 with currentTable := t }
              previewTable schema t pR (loadColumns schema t cR st4)

/-- Lexicographic less-or-equal on character lists. -/
def lexLe : List Char → List Char → Bool
  | [], _ => true
  | _ :: _, [] => false
  | a :: as, b :: bs => if a < b then true else if a = b then lexLe as bs else false

/-- Go's string comparison used by `sort.Strings`: byte-wise
lexicographic order, which on UTF-8 data coincides with the
codepoint-lexicographic order computed here. -/
def leStr (a b : String) : Bool := lexLe a.data b.data

/-- Model of Go `sort.Strings`: sort lexicographically. -/
def sortStrings (l : List String) : List String :=
  l.insertionSort (fun a b => leStr a b = true)

/-- `loadSchemas` of `db.go`: issue the schema query (returning the
error on failure); clear the schema list; collect the names (a scan
error is returned with the list left cleared); sort them with
`sort.Strings`; populate the list; if non-empty auto-select the first
schema -- setting `currentSchema` and triggering `loadTables` for it;
finally return `rows.Err()`. -/
def loadSchemas (sR : SchemasResp) (tR : TablesResp) (cR : ColsResp) (pR : QueryResponse)
    (st : AppState) : AppState × Option String :=
  let st1 := { st with issued := st.issued ++ [(schemataSQL, ([] : List String))] }
  match sR with
  | SchemasResp.fail m => (st1, some m)
  | SchemasResp.rows steps finalErr =>
      let st2 := { st1 with schemaItems := [] }
      match collectNames steps with
      | Except.error m => (st2, some m)
      | Except.ok schemas =>
          let sorted := sortStrings schemas
          let st3 := { st2 with schemaItems := sorted }
          match sorted with
          | [] => (st3, finalErr)
          | s0 :: _ =>
              (loadTables s0 tR cR pR { st3 with currentSchema := s0 }, finalErr)

/-- The `schemaList.SetSelectedFunc` callback of `initUI` (`ui.go`):
selecting a schema sets `currentSchema` to the selected main text and
calls `loadTables` for it.  It does not touch `currentTable`. -/
def selectSchema (name : String) (tR : TablesResp) (cR : ColsResp) (pR : QueryResponse)
    (st : AppState) : AppState :=
  loadTables name tR cR pR { st with currentSchema := name }

/-- The `tableList.SetSelectedFunc` callback of `initUI` (`ui.go`):
selecting a table sets `currentTable` and triggers `loadColumns` and
`previewTable` for the current schema. -/
def selectTable (name : String) (cR : ColsResp) (pR : QueryResponse)
    (st : AppState) : AppState :=
  let st1 := { st with currentTable := name }
  previewTable st1.currentSchema name pR (loadColumns st1.currentSchema name cR st1)

/-! ### Notification Coordinator timing model (`toast` in `ui.go`)

The Go `toast` sets the status bar to a yellow-tagged message and
spawns a goroutine that sleeps 3 seconds and then (through
`QueueUpdateDraw`) unconditionally resets the status bar to the idle
message.  Discrete model: the status-bar text plus the multiset of
pending revert fire times; posting at time `t` schedules a revert at
`t + 3`; a scheduled revert firing resets the display unconditionally,
exactly as `updateStatus` does. -/

/-- The idle status-bar message restored by the delayed revert. -/
def idleMsg : String := "F5: Run | q: Quit | r: Refresh | Tab: Cycle Focus"

/-- The status-bar text a toast displays (`[yellow]` colour tag plus
the message). -/
def toastText (m : String) : String := "[yellow]" ++ m

/-- Status bar plus the fire times of the pending delayed reverts. -/
structure ToastSys where
  display : String := idleMsg
  timers : List Nat := []
deriving DecidableEq

/-- Posting a toast at time `now`: display the message and schedule a
revert at `now + 3` (seconds). -/
def postToast (now : Nat) (m : String) (s : ToastSys) : ToastSys :=
  { display := toastText m, timers := s.timers ++ [now + 3] }

/-- A scheduled revert firing at time `t`: the goroutine wakes and
unconditionally writes the idle message (the code has no sequence
number or message comparison). -/
def fireTimer (t : Nat) (s : ToastSys) : ToastSys :=
  if t ∈ s.timers then { display := idleMsg, timers := s.timers.erase t } else s

/-- A timeline event: a toast posted, or a pending revert firing. -/
inductive TEvent
  | post (time : Nat) (msg : String)
  | fire (time : Nat)
deriving DecidableEq

/-- Apply one timeline event. -/
def applyEvent : TEvent → ToastSys → ToastSys
  | TEvent.post t m, s => postToast t m s
  | TEvent.fire t, s => fireTimer t s

/-- Run a timeline of toast events in order. -/
def runToasts (evs : List TEvent) (s : ToastSys) : ToastSys :=
  evs.foldl (fun a e => applyEvent e a) s

/-! ### Helper lemmas -/

lemma collectNames_map_ok : ∀ l : List String, collectNames (l.map Except.ok) = Except.ok l := by
  intro l
  induction l with
  | nil => rfl
  | cons x xs ih => simp [collectNames, ih]

lemma runRows_shape (steps : List RowStep) (fe : Option String) (k : Nat) (st : AppState) :
    ∃ rr nts, runRows steps fe k st = { st with resultRows := rr, notes := nts } := by
  induction steps generalizing k st with
  | nil =>
    cases fe with
    | none => exact ⟨st.resultRows, st.notes ++ [Note.success k], rfl⟩
    | some e => exact ⟨st.resultRows, st.notes ++ [Note.rowsErr e], rfl⟩
  | cons s rest ih =>
    cases s with
    | ok vals =>
      obtain ⟨rr, nts, h⟩ := ih (k + 1)
        { st with resultRows := st.resultRows ++ [setRowTexts (materializeCells vals)] }
      exact ⟨rr, nts, h⟩
    | err m => exact ⟨st.resultRows, st.notes ++ [Note.rowError m], rfl⟩

lemma runQueryInto_shape (q : String) (resp : QueryResponse) (st : AppState) :
    ∃ rr nts, runQueryInto q resp st =
      { st with
          issued := st.issued ++ [(q, ([] : List String))],
          resultRows := rr, notes := nts } := by
  cases resp with
  | fail m => exact ⟨st.resultRows, st.notes ++ [Note.queryError m], rfl⟩
  | ok hdrs steps finalErr =>
    obtain ⟨rr, nts, h⟩ := runRows_shape steps finalErr 0
      { st with issued := st.issued ++ [(q, ([] : List String))], resultRows := [setHeaderTexts hdrs] }
    exact ⟨rr, nts, h⟩

lemma previewTable_shape (schema table : String) (pR : QueryResponse) (st : AppState) :
    ∃ rr nts, previewTable schema table pR st =
      { st with
          issued := st.issued ++ [(previewQuery schema table st.previewLimit, ([] : List String))],
          resultRows := rr, notes := nts } :=
  runQueryInto_shape _ pR st

lemma paintCols_shape (steps : List (Except String (String × String × String))) (st : AppState) :
    ∃ cr nts, paintCols steps st = { st with columnRows := cr, notes := nts } := by
  induction steps generalizing st with
  | nil => exact ⟨st.columnRows, st.notes, rfl⟩
  | cons s rest ih =>
    cases s with
    | error m => exact ⟨st.columnRows, st.notes ++ [Note.scanError m], rfl⟩
    | ok row =>
      obtain ⟨n, t, nu⟩ := row
      obtain ⟨cr, nts, h⟩ := ih { st with columnRows := st.columnRows ++ [setRowTexts [n, t, nu]] }
      exact ⟨cr, nts, h⟩

lemma loadColumns_shape (schema table : String) (cR : ColsResp) (st : AppState) :
    ∃ cr nts, loadColumns schema table cR st =
      { st with
          issued := st.issued ++ [(columnsSQL, [schema, table])],
          columnRows := cr, notes := nts } := by
  cases cR with
  | fail m => exact ⟨st.columnRows, st.notes ++ [Note.loadColumnsError m], rfl⟩
  | rows steps =>
    obtain ⟨cr, nts, h⟩ := paintCols_shape steps
      { st with
          issued := st.issued ++ [(columnsSQL, [schema, table])],
          columnRows := [setHeaderTexts ["Column", "Type", "Nullable"]] }
    exact ⟨cr, nts, h⟩

lemma loadTables_fail (schema m : String) (cR : ColsResp) (pR : QueryResponse) (st : AppState) :
    loadTables schema (TablesResp.fail m) cR pR st =
      { st with
          issued := st.issued ++ [(tablesSQL, [schema])],
          notes := st.notes ++ [Note.loadTablesError m] } := rfl

lemma loadTables_rows_nil (schema : String) (cR : ColsResp) (pR : QueryResponse) (st : AppState) :
    loadTables schema (TablesResp.rows []) cR pR st =
      { st with
          issued := st.issued ++ [(tablesSQL, [schema])],
          tableItems := [], columnRows := [], resultRows := [] } := rfl

lemma loadTables_rows_nonempty (schema t : String) (ts : List String) (cR : ColsResp)
    (pR : QueryResponse) (st : AppState) :
    ∃ more cr rr nts, loadTables schema (TablesResp.rows ((t :: ts).map Except.ok)) cR pR st =
      { st with
          issued := st.issued ++ (tablesSQL, [schema]) :: more,
          tableItems := t :: ts, currentTable := t,
          columnRows := cr, resultRows := rr, notes := nts } := by
  have hcoll := collectNames_map_ok (t :: ts)
  obtain ⟨cr, nts1, hc⟩ := loadColumns_shape schema t cR
    { st with
        issued := st.issued ++ [(tablesSQL, [schema])], tableItems := t :: ts,
        currentTable := t }
  obtain ⟨rr, nts2, hp⟩ := previewTable_shape schema t pR
    { st with
        issued := (st.issued ++ [(tablesSQL, [schema])]) ++ [(columnsSQL, [schema, t])],
        tableItems := t :: ts, currentTable := t, columnRows := cr, notes := nts1 }
  refine ⟨(columnsSQL, [schema, t]) ::
    [(previewQuery schema t st.previewLimit, ([] : List String))], cr, rr, nts2, ?_⟩
  have hred : loadTables schema (TablesResp.rows ((t :: ts).map Except.ok)) cR pR st =
      previewTable schema t pR (loadColumns schema t cR
        { st with
            issued := st.issued ++ [(tablesSQL, [schema])], tableItems := t :: ts,
            currentTable := t }) := by
    simp only [loadTables]
    rw [hcoll]
  rw [hred, hc, hp]
  simp [List.append_assoc]

lemma loadTables_shape (schema : String) (tR : TablesResp) (cR : ColsResp) (pR : QueryResponse)
    (st : AppState) :
    ∃ more ti ct cr rr nts, loadTables schema tR cR pR st =
      { st with
          issued := st.issued ++ (tablesSQL, [schema]) :: more,
          tableItems := ti, currentTable := ct,
          columnRows := cr, resultRows := rr, notes := nts } := by
  cases tR with
  | fail m =>
    exact ⟨[], st.tableItems, st.currentTable, st.columnRows, st.resultRows,
      st.notes ++ [Note.loadTablesError m], rfl⟩
  | rows steps =>
    cases hcoll : collectNames steps with
    | error m =>
      refine ⟨[], [], st.currentTable, st.columnRows, st.resultRows,
        st.notes ++ [Note.scanError m], ?_⟩
      simp [loadTables, hcoll, toast]
    | ok tables =>
      cases tables with
      | nil =>
        refine ⟨[], [], st.currentTable, [], [], st.notes, ?_⟩
        simp [loadTables, hcoll]
      | cons t ts =>
        obtain ⟨cr, nts1, hc⟩ := loadColumns_shape schema t cR
          { st with
              issued := st.issued ++ [(tablesSQL, [schema])], tableItems := t :: ts,
              currentTable := t }
        obtain ⟨rr, nts2, hp⟩ := previewTable_shape schema t pR
          { st with
              issued := (st.issued ++ [(tablesSQL, [schema])]) ++ [(columnsSQL, [schema, t])],
              tableItems := t :: ts, currentTable := t, columnRows := cr, notes := nts1 }
        refine ⟨(columnsSQL, [schema, t]) ::
          [(previewQuery schema t st.previewLimit, ([] : List String))],
          t :: ts, t, cr, rr, nts2, ?_⟩
        have hred : loadTables schema (TablesResp.rows steps) cR pR st =
            previewTable schema t pR (loadColumns schema t cR
              { st with
                  issued := st.issued ++ [(tablesSQL, [schema])], tableItems := t :: ts,
                  currentTable := t }) := by
          simp only [loadTables]
          rw [hcoll]
        rw [hred, hc, hp]
        simp [List.append_assoc]

lemma runRows_paint_err (good : List (List GoValue)) (m : String) (rest : List RowStep)
    (fe : Option String) (k : Nat) (st : AppState) :
    runRows (good.map RowStep.ok ++ RowStep.err m :: rest) fe k st =
      toast (Note.rowError m)
        { st with resultRows := st.resultRows ++ good.map (fun v => setRowTexts (materializeCells v)) } := by
  induction good generalizing k st with
  | nil => simp [runRows, toast]
  | cons v good ih =>
    rw [List.map_cons, List.cons_append]
    show runRows (good.map RowStep.ok ++ RowStep.err m :: rest) fe (k + 1)
      { st with resultRows := st.resultRows ++ [setRowTexts (materializeCells v)] } = _
    rw [ih]
    simp [toast]

lemma runRows_paint_final (good : List (List GoValue)) (e : String) (k : Nat) (st : AppState) :
    runRows (good.map RowStep.ok) (some e) k st =
      toast (Note.rowsErr e)
        { st with resultRows := st.resultRows ++ good.map (fun v => setRowTexts (materializeCells v)) } := by
  induction good generalizing k st with
  | nil => simp [runRows, toast]
  | cons v good ih =>
    rw [List.map_cons]
    show runRows (good.map RowStep.ok) (some e) (k + 1)
      { st with resultRows := st.resultRows ++ [setRowTexts (materializeCells v)] } = _
    rw [ih]
    simp [toast]

lemma exists_first_nonspace (l : List Char) (h : l.any (fun d => !reSpace d) = true) :
    ∃ ws c post, l = ws ++ c :: post ∧ (∀ w ∈ ws, reSpace w = true) ∧ reSpace c = false := by
  induction l with
  | nil => simp at h
  | cons a rest ih =>
    by_cases ha : reSpace a = true
    · have hrest : rest.any (fun d => !reSpace d) = true := by
        simpa [List.any_cons, ha] using h
      obtain ⟨ws, c, post, heq, hws, hc⟩ := ih hrest
      refine ⟨a :: ws, c, post, by simp [heq], ?_, hc⟩
      intro w hw
      rcases List.mem_cons.mp hw with hwa | hwm
      · rw [hwa]; exact ha
      · exact hws w hwm
    · exact ⟨[], a, rest, rfl, by simp, by simpa using ha⟩

lemma hasMult_append (pre rest : List Char) (h : rest.any (fun d => !reSpace d) = true) :
    hasMultipleStatements (pre ++ ';' :: rest) = true := by
  induction pre with
  | nil => simp [hasMultipleStatements, h]
  | cons a pre ih => simp [hasMultipleStatements, ih]

lemma doubledQuotes_cons (c : Char) (l : List Char) (hc : ¬ c = '"')
    (hl : doubledQuotes l = true) : doubledQuotes (c :: l) = true := by
  cases l with
  | nil => simp [doubledQuotes, hc]
  | cons d rest => simpa [doubledQuotes, hc] using hl

lemma escapeQuotes_doubled : ∀ l, doubledQuotes (escapeQuotes l) = true := by
  intro l
  induction l with
  | nil => rfl
  | cons c rest ih =>
    by_cases h : c = '"'
    · subst h
      have : escapeQuotes ('"' :: rest) = '"' :: '"' :: escapeQuotes rest := by
        simp [escapeQuotes]
      rw [this]
      simpa [doubledQuotes] using ih
    · have : escapeQuotes (c :: rest) = c :: escapeQuotes rest := by
        simp [escapeQuotes, h]
      rw [this]
      exact doubledQuotes_cons c _ h ih

lemma lexLe_refl : ∀ a, lexLe a a = true := by
  intro a
  induction a with
  | nil => rfl
  | cons x xs ih => simp [lexLe, ih]

lemma lexLe_total : ∀ a b, lexLe a b = true ∨ lexLe b a = true := by
  intro a
  induction a with
  | nil => intro b; left; rfl
  | cons x xs ih =>
    intro b
    cases b with
    | nil => right; rfl
    | cons y ys =>
      rcases lt_trichotomy x y with h | h | h
      · left; simp [lexLe, h]
      · subst h
        rcases ih ys with h2 | h2
        · left; simp [lexLe, h2]
        · right; simp [lexLe, h2]
      · right; simp [lexLe, h]

lemma lexLe_trans : ∀ a b c, lexLe a b = true → lexLe b c = true → lexLe a c = true := by
  intro a
  induction a with
  | nil => intro b c _ _; rfl
  | cons x xs ih =>
    intro b c hab hbc
    cases b with
    | nil => simp [lexLe] at hab
    | cons y ys =>
      cases c with
      | nil => simp [lexLe] at hbc
      | cons z zs =>
        by_cases hxy : x < y
        · by_cases hyz : y < z
          · simp [lexLe, lt_trans hxy hyz]
          · by_cases hyz2 : y = z
            · subst hyz2; simp [lexLe, hxy]
            · simp [lexLe, hyz, hyz2] at hbc
        · by_cases hxy2 : x = y
          · subst hxy2
            by_cases hyz : x < z
            · simp [lexLe, hyz]
            · by_cases hyz2 : x = z
              · subst hyz2
                have hab2 : lexLe xs ys = true := by simpa [lexLe] using hab
                have hbc2 : lexLe ys zs = true := by simpa [lexLe] using hbc
                simp [lexLe, ih ys zs hab2 hbc2]
              · simp [lexLe, hyz, hyz2] at hbc
          · simp [lexLe, hxy, hxy2] at hab

lemma lexLe_antisymm : ∀ a b, lexLe a b = true → lexLe b a = true → a = b := by
  intro a
  induction a with
  | nil =>
    intro b _ hba
    cases b with
    | nil => rfl
    | cons y ys => simp [lexLe] at hba
  | cons x xs ih =>
    intro b hab hba
    cases b with
    | nil => simp [lexLe] at hab
    | cons y ys =>
      by_cases hxy : x < y
      · simp [lexLe, asymm hxy, ne_of_gt hxy] at hba
      · by_cases hxy2 : x = y
        · subst hxy2
          have hab2 : lexLe xs ys = true := by simpa [lexLe] using hab
          have hba2 : lexLe ys xs = true := by simpa [lexLe] using hba
          rw [ih ys hab2 hba2]
        · simp [lexLe, hxy, hxy2] at hab

instance : IsTotal String (fun a b => leStr a b = true) :=
  ⟨fun a b => lexLe_total a.data b.data⟩

instance : IsTrans String (fun a b => leStr a b = true) :=
  ⟨fun a b c => lexLe_trans a.data b.data c.data⟩

instance : IsAntisymm String (fun a b => leStr a b = true) := by
  refine ⟨fun a b h1 h2 => ?_⟩
  cases a with
  | mk la =>
    cases b with
    | mk lb =>
      have : la = lb := lexLe_antisymm la lb h1 h2
      rw [this]

lemma sortStrings_sorted (l : List String) :
    List.Sorted (fun a b => leStr a b = true) (sortStrings l) :=
  List.sorted_insertionSort _ l

lemma sortStrings_perm (l : List String) : (sortStrings l).Perm l :=
  List.perm_insertionSort _ l

lemma sortStrings_eq_of_perm (l1 l2 : List String) (h : l1.Perm l2) :
    sortStrings l1 = sortStrings l2 :=
  List.eq_of_perm_of_sorted
    ((sortStrings_perm l1).trans (h.trans (sortStrings_perm l2).symm))
    (sortStrings_sorted l1) (sortStrings_sorted l2)

/-! ### Claims -/

/-- Counterexample state for claim C1: a query against a previously
non-empty result display whose cursor yields one good row and then a
row-level decode error. -/
def c1State : AppState :=
  runQueryInto "q"
    (QueryResponse.ok ["c"] [RowStep.ok [GoValue.val "1"], RowStep.err "boom"] none)
    { initState with resultRows := [["old"]] }

/-- Claim C1 is false as stated: on a mid-iteration row decode error
the operation does post only a failure notification, but the
previously displayed Query Result has already been cleared and the
partial row materialized before the error is surfaced in the display
(the result pane holds the new header plus one partial row, not the
old result). -/
theorem C1_counterexample :
    c1State.resultRows = [[" c "], ["1"]] ∧
    ¬ c1State.resultRows = [["old"]] ∧
    c1State.notes = [Note.rowError "boom"] := by decide

/-- Claim C1, amended: a failure at query issue (connection error, SQL
error, deadline exceeded, cancellation) produces only a failure
notification and leaves the displayed Query Result unchanged; a
mid-iteration row decode error, and likewise a terminal cursor error,
produce a failure notification and no success outcome, but the display
has by then been cleared and repopulated with the header and the rows
materialized before the failure, so those partial rows are surfaced
rather than discarded. -/
theorem C1_amended_failure_outcomes (q : String) (st : AppState) :
    (∀ m, runQueryInto q (QueryResponse.fail m) st =
      { st with
          issued := st.issued ++ [(q, ([] : List String))],
          notes := st.notes ++ [Note.queryError m] }) ∧
    (∀ (hdrs : List String) (good : List (List GoValue)) (m : String)
        (rest : List RowStep) (fe : Option String),
      runQueryInto q
        (QueryResponse.ok hdrs (good.map RowStep.ok ++ RowStep.err m :: rest) fe) st =
      { st with
          issued := st.issued ++ [(q, ([] : List String))],
          resultRows := setHeaderTexts hdrs ::
            good.map (fun v => setRowTexts (materializeCells v)),
          notes := st.notes ++ [Note.rowError m] }) ∧
    (∀ (hdrs : List String) (good : List (List GoValue)) (e : String),
      runQueryInto q (QueryResponse.ok hdrs (good.map RowStep.ok) (some e)) st =
      { st with
          issued := st.issued ++ [(q, ([] : List String))],
          resultRows := setHeaderTexts hdrs ::
            good.map (fun v => setRowTexts (materializeCells v)),
          notes := st.notes ++ [Note.rowsErr e] }) := by
  refine ⟨fun m => rfl, ?_, ?_⟩
  · intro hdrs good m rest fe
    show runRows (good.map RowStep.ok ++ RowStep.err m :: rest) fe 0
      { st with
          issued := st.issued ++ [(q, ([] : List String))],
          resultRows := [setHeaderTexts hdrs] } = _
    rw [runRows_paint_err]
    simp [toast]
  · intro hdrs good e
    show runRows (good.map RowStep.ok) (some e) 0
      { st with
          issued := st.issued ++ [(q, ([] : List String))],
          resultRows := [setHeaderTexts hdrs] } = _
    rw [runRows_paint_final]
    simp [toast]

/-- Claim C2: evaluating the toast timing model at the spec's own
scenario (two notifications posted 1 second apart).  While only the
posts have happened the second toast is displayed; once the first
toast's revert timer fires at +3 s it unconditionally resets the
status bar to the idle message, overwriting the still-active second
notification -- the stale revert does fire and is not a no-op. -/
theorem C2_stale_revert_fires :
    (runToasts [TEvent.post 0 "first", TEvent.post 1 "second"]
      { display := idleMsg, timers := [] }).display = toastText "second" ∧
    (runToasts [TEvent.post 0 "first", TEvent.post 1 "second", TEvent.fire 3]
      { display := idleMsg, timers := [] }).display = idleMsg ∧
    ¬ idleMsg = toastText "second" := by decide

/-- Counterexample state for claim C3: select schema `a` (one table
`t`, which is auto-selected), then select schema `b` whose table load
returns no tables. -/
def c3State : AppState :=
  selectSchema "b" (TablesResp.rows []) (ColsResp.rows [])
    (QueryResponse.ok [] [] none)
    (selectSchema "a" (TablesResp.rows [Except.ok "t"]) (ColsResp.rows [])
      (QueryResponse.ok [] [] none) initState)

/-- Claim C3 is false as stated: after selecting schema `b` (whose
table load is empty), `currentTable` still holds `t` from schema `a` --
`selectSchema` never clears `currentTable`, and the invariant that a
non-empty `currentTable` is among the tables most recently loaded for
`currentSchema` is violated in this reachable state. -/
theorem C3_counterexample :
    c3State.currentSchema = "b" ∧ c3State.currentTable = "t" ∧
    c3State.tableItems = [] ∧
    ¬ (c3State.currentTable = "" ∨ c3State.currentTable ∈ c3State.tableItems) := by decide

/-- Claim C3, amended: `selectSchema(name)` sets `currentSchema` to
`name` and triggers `loadTables(name)` but does not clear
`currentTable`.  When the table load succeeds with a non-empty list
the first table is auto-selected (so `currentTable` is again among the
loaded tables); when the load fails or returns no tables,
`currentTable` retains its previous value, which may not belong to the
tables most recently loaded for `currentSchema`. -/
theorem C3_amended_selectSchema (st : AppState) (name : String) (tR : TablesResp)
    (cR : ColsResp) (pR : QueryResponse) :
    (selectSchema name tR cR pR st).currentSchema = name ∧
    (∃ more, (selectSchema name tR cR pR st).issued =
      st.issued ++ (tablesSQL, [name]) :: more) ∧
    (∀ t ts, tR = TablesResp.rows ((t :: ts).map Except.ok) →
      (selectSchema name tR cR pR st).currentTable = t ∧ t ∈ t :: ts ∧
      (selectSchema name tR cR pR st).tableItems = t :: ts) ∧
    (∀ m, tR = TablesResp.fail m →
      (selectSchema name tR cR pR st).currentTable = st.currentTable) ∧
    (tR = TablesResp.rows [] →
      (selectSchema name tR cR pR st).currentTable = st.currentTable) := by
  obtain ⟨more, ti, ct, cr, rr, nts, hsh⟩ :=
    loadTables_shape name tR cR pR { st with currentSchema := name }
  refine ⟨?_, ?_, ?_, ?_, ?_⟩
  · show (loadTables name tR cR pR { st with currentSchema := name }).currentSchema = name
    rw [hsh]
  · refine ⟨more, ?_⟩
    show (loadTables name tR cR pR { st with currentSchema := name }).issued = _
    rw [hsh]
  · intro t ts htR
    subst htR
    obtain ⟨more2, cr2, rr2, nts2, hne⟩ :=
      loadTables_rows_nonempty name t ts cR pR { st with currentSchema := name }
    refine ⟨?_, List.mem_cons_self t ts, ?_⟩
    · show (loadTables name (TablesResp.rows ((t :: ts).map Except.ok)) cR pR
        { st with currentSchema := name }).currentTable = t
      rw [hne]
    · show (loadTables name (TablesResp.rows ((t :: ts).map Except.ok)) cR pR
        { st with currentSchema := name }).tableItems = t :: ts
      rw [hne]
  · intro m htR
    subst htR
    show (loadTables name (TablesResp.fail m) cR pR
      { st with currentSchema := name }).currentTable = st.currentTable
    rw [loadTables_fail]
  · intro htR
    subst htR
    show (loadTables name (TablesResp.rows []) cR pR
      { st with currentSchema := name }).currentTable = st.currentTable
    rw [loadTables_rows_nil]

lemma hasMult_split (l : List Char) :
    hasMultipleStatements l = true → specMultiStatement l := by
  induction l with
  | nil => intro h; simp [hasMultipleStatements] at h
  | cons c rest ih =>
    intro h
    rw [hasMultipleStatements, Bool.or_eq_true] at h
    rcases h with h1 | h2
    · rw [Bool.and_eq_true] at h1
      obtain ⟨hdec, hany⟩ := h1
      have hc : c = ';' := of_decide_eq_true hdec
      obtain ⟨ws, d, post, heq, hws, hd⟩ := exists_first_nonspace rest hany
      exact ⟨[], ws, d, post, by rw [hc, heq]; rfl, hws, hd⟩
    · obtain ⟨pre, ws, d, post, heq, hws, hd⟩ := ih h2
      exact ⟨c :: pre, ws, d, post, by rw [heq]; rfl, hws, hd⟩

/-- Claim C4: the Statement Guard classifies a text as multi-statement
iff it contains a semicolon followed, after optional whitespace (the
Guard's whitespace class), by a non-whitespace character; hence a
string whose only semicolon is trailing (followed by nothing or only
whitespace) is classified single-statement. -/
theorem C4_guard_iff (l : List Char) :
    hasMultipleStatements l = true ↔ specMultiStatement l := by
  constructor
  · exact hasMult_split l
  · rintro ⟨pre, ws, c, post, heq, hws, hc⟩
    subst heq
    apply hasMult_append
    refine List.any_eq_true.mpr ⟨c, ?_, ?_⟩
    · simp
    · simp [hc]

/-- Counterexample input for claim C5: a semicolon followed by a
vertical tab (U+000B).  The vertical tab is outside the Guard's
regexp whitespace class `[\t\n\f\r ]`, so the Guard classifies the raw
input as multi-statement; but it IS Unicode white space, so
`strings.TrimSpace` removes it before the guard check in
`runAdhocQuery`, and the query is executed. -/
def c5Input : String := "SELECT 1;" ++ String.mk [Char.ofNat 11]

/-- Claim C5 is false as stated: the input `"SELECT 1;\x0B"` is
classified multi-statement by the Statement Guard, yet `runAdhocQuery`
executes it -- exactly one query (`"SELECT 1;"`) is sent to the
database and no multi-statement notification is posted, because the
code applies the Guard to the trimmed input, not to the raw input. -/
theorem C5_counterexample :
    hasMultipleStatements c5Input.data = true ∧
    (runAdhocQuery c5Input (QueryResponse.fail "boom") initState).issued =
      [("SELECT 1;", ([] : List String))] ∧
    Note.multiStmt ∉ (runAdhocQuery c5Input (QueryResponse.fail "boom") initState).notes := by
  decide

/-- Claim C5, amended: for every ad-hoc input whose whitespace-trimmed
text the Statement Guard classifies as multi-statement, execution is
refused -- a user-visible notification is posted and zero queries are
sent to the database (the state is otherwise unchanged).  The Guard
runs on the trimmed input, so an input classified multi-statement only
because of a leading/trailing character that is Unicode whitespace but
outside the Guard's whitespace class (such as a vertical tab) is
executed instead. -/
theorem C5_amended_refusal (q : String) (resp : QueryResponse) (st : AppState)
    (h : hasMultipleStatements (trimSpace q).data = true) :
    runAdhocQuery q resp st = { st with notes := st.notes ++ [Note.multiStmt] } := by
  have hne : ¬ trimSpace q = "" := by
    intro he
    rw [he] at h
    exact absurd h (by decide)
  simp only [runAdhocQuery]
  rw [if_neg hne, if_pos h]
  rfl

/-- Witness for the amended claim C5 at the spec's own scenario input. -/
theorem C5_amended_witness :
    hasMultipleStatements (trimSpace "SELECT 1; SELECT 2").data = true ∧
    runAdhocQuery "SELECT 1; SELECT 2" (QueryResponse.fail "x") initState =
      { initState with notes := [Note.multiStmt] } :=
  ⟨by decide,
    C5_amended_refusal "SELECT 1; SELECT 2" (QueryResponse.fail "x") initState (by decide)⟩

/-- Claim C6: the Identifier Quoter returns the empty string and every
identifier matching the anchored pattern for unquoted lowercase
identifiers unchanged; every other non-empty identifier is returned
wrapped in double quotes, its body being the input with each embedded
double quote doubled (so every double quote of the body occurs as an
adjacent pair). -/
theorem C6_pgIdent_spec (s : String) :
    (s = "" → pgIdent s = s) ∧
    (matchesLowerIdent s = true → pgIdent s = s) ∧
    (¬ s = "" → matchesLowerIdent s = false →
      (pgIdent s).data = '"' :: (escapeQuotes s.data ++ ['"']) ∧
      doubledQuotes (escapeQuotes s.data) = true) := by
  refine ⟨?_, ?_, ?_⟩
  · intro h
    simp [pgIdent, h]
  · intro h
    by_cases he : s = ""
    · simp [pgIdent, he]
    · simp [pgIdent, he, h]
  · intro he hm
    refine ⟨?_, escapeQuotes_doubled s.data⟩
    simp [pgIdent, he, hm]

/-- Claim C7: `previewTable` issues exactly one query, whose text is
the `SELECT * FROM` / `LIMIT` template instantiated with the quoted
schema, the quoted table, and the configured preview limit; at schema
`public`, table `Orders`, limit 100 this evaluates to the exact string
of the spec's scenario. -/
theorem C7_preview_query (schema table : String) (resp : QueryResponse) (st : AppState) :
    (previewTable schema table resp st).issued =
      st.issued ++ [("SELECT * FROM " ++ pgIdent schema ++ "." ++ pgIdent table ++
        " LIMIT " ++ toString st.previewLimit, ([] : List String))] ∧
    previewQuery "public" "Orders" 100 = "SELECT * FROM public.\"Orders\" LIMIT 100" := by
  constructor
  · obtain ⟨rr, nts, h⟩ := previewTable_shape schema table resp st
    rw [h]
    rfl
  · decide

/-- Claim C8: in every materialized result row, the cell produced for a
nil (SQL NULL) value is the literal string NULL -- never the empty
string, so it stays distinguishable from a cell holding an actual
empty-string value -- and the cell produced for any non-nil value is
that value's default textual representation. -/
theorem C8_null_rendering (pre post : List GoValue) (v : GoValue) :
    materializeCells (pre ++ v :: post) =
      materializeCells pre ++ stringifyVal v :: materializeCells post ∧
    (v = GoValue.nil → stringifyVal v = "NULL" ∧ ¬ stringifyVal v = "") ∧
    (∀ r, v = GoValue.val r → stringifyVal v = r) ∧
    ¬ stringifyVal GoValue.nil = stringifyVal (GoValue.val "") := by
  refine ⟨?_, ?_, ?_, by decide⟩
  · simp [materializeCells]
  · intro h
    subst h
    exact ⟨rfl, by decide⟩
  · intro r h
    subst h
    rfl

/-- Claim C9: when the engine answers the schema catalog query with
exactly the catalog's schema names minus the excluded system schemas
(in any order -- the client re-sorts), `loadSchemas` succeeds, its
selectable schema set is that filtered catalog sorted
lexicographically, and when non-empty the lexicographically smallest
schema becomes `currentSchema` with a table load issued for it.  The
hypothesis `hperm` embeds the semantics of the `NOT IN` clause of
`schemataSQL`: the row stream is a permutation of the non-excluded
catalog names. -/
theorem C9_loadSchemas (catalog names : List String) (tR : TablesResp) (cR : ColsResp)
    (pR : QueryResponse) (st : AppState) (out : AppState × Option String)
    (hout : out = loadSchemas (SchemasResp.rows (names.map Except.ok) none) tR cR pR st)
    (hperm : names.Perm (catalog.filter (fun n => decide (n ∉ excludedSchemas)))) :
    out.2 = none ∧
    out.1.schemaItems = sortStrings (catalog.filter (fun n => decide (n ∉ excludedSchemas))) ∧
    List.Sorted (fun a b => leStr a b = true) out.1.schemaItems ∧
    (∀ n, n ∈ out.1.schemaItems ↔ (n ∈ catalog ∧ n ∉ excludedSchemas)) ∧
    (∀ s0 rest, out.1.schemaItems = s0 :: rest →
      out.1.currentSchema = s0 ∧ (∀ x ∈ out.1.schemaItems, leStr s0 x = true) ∧
      (tablesSQL, [s0]) ∈ out.1.issued) := by
  have hcoll := collectNames_map_ok names
  have hsorteq : sortStrings names =
      sortStrings (catalog.filter (fun n => decide (n ∉ excludedSchemas))) :=
    sortStrings_eq_of_perm _ _ hperm
  have hmem : ∀ n : String,
      (n ∈ sortStrings (catalog.filter (fun n => decide (n ∉ excludedSchemas))) ↔
        (n ∈ catalog ∧ n ∉ excludedSchemas)) := by
    intro n
    rw [(sortStrings_perm _).mem_iff, List.mem_filter]
    simp
  cases hs : sortStrings names with
  | nil =>
    have hnames : names = [] := by
      have hp := sortStrings_perm names
      rw [hs] at hp
      exact (hp.symm).eq_nil
    have hred : out = ({ st with
        issued := st.issued ++ [(schemataSQL, ([] : List String))],
        schemaItems := [] }, none) := by
      rw [hout, hnames]
      rfl
    have h2 : out.1.schemaItems =
        sortStrings (catalog.filter (fun n => decide (n ∉ excludedSchemas))) := by
      rw [hred, ← hsorteq, hs]
    refine ⟨by rw [hred], h2, ?_, ?_, ?_⟩
    · rw [h2]
      exact sortStrings_sorted _
    · intro n
      rw [h2]
      exact hmem n
    · intro s0 rest habs
      rw [hred] at habs
      simp at habs
  | cons s0 rest =>
    have hred : out = (loadTables s0 tR cR pR
        { st with
            issued := st.issued ++ [(schemataSQL, ([] : List String))],
            schemaItems := s0 :: rest, currentSchema := s0 }, none) := by
      rw [hout]
      simp only [loadSchemas, hcoll, hs]
    obtain ⟨more, ti, ct, cr, rr, nts, hsh⟩ := loadTables_shape s0 tR cR pR
      { st with
          issued := st.issued ++ [(schemataSQL, ([] : List String))],
          schemaItems := s0 :: rest, currentSchema := s0 }
    have h2 : out.1.schemaItems =
        sortStrings (catalog.filter (fun n => decide (n ∉ excludedSchemas))) := by
      rw [hred]
      show (loadTables s0 tR cR pR _).schemaItems = _
      rw [hsh, ← hsorteq, hs]
    have hsorted : List.Sorted (fun a b => leStr a b = true) (s0 :: rest) := by
      rw [← hs]
      exact sortStrings_sorted names
    refine ⟨by rw [hred], h2, ?_, ?_, ?_⟩
    · rw [h2]
      exact sortStrings_sorted _
    · intro n
      rw [h2]
      exact hmem n
    · intro a b hab
      have hitems : out.1.schemaItems = s0 :: rest := by
        rw [hred]
        show (loadTables s0 tR cR pR _).schemaItems = _
        rw [hsh]
      rw [hitems] at hab
      have ha : s0 = a := (List.cons.injEq _ _ _ _ ▸ hab).1
      refine ⟨?_, ?_, ?_⟩
      · rw [hred]
        show (loadTables s0 tR cR pR _).currentSchema = a
        rw [hsh, ← ha]
      · intro x hx
        rw [hitems] at hx
        rcases List.mem_cons.mp hx with hx0 | hxr
        · rw [← ha, hx0]
          exact lexLe_refl _
        · rw [← ha]
          exact (List.sorted_cons.mp hsorted).1 x hxr
      · rw [hred]
        show (tablesSQL, [a]) ∈ (loadTables s0 tR cR pR _).issued
        rw [hsh, ← ha]
        simp

/-- Witness for claim C9 at the spec's scenario: catalog
`["public", "pg_toast", "analytics"]`, engine rows
`["analytics", "public"]`. -/
theorem C9_witness :
    (loadSchemas (SchemasResp.rows ((["analytics", "public"] : List String).map Except.ok) none)
      (TablesResp.rows []) (ColsResp.rows []) (QueryResponse.fail "x") initState).2 = none ∧
    (loadSchemas (SchemasResp.rows ((["analytics", "public"] : List String).map Except.ok) none)
      (TablesResp.rows []) (ColsResp.rows []) (QueryResponse.fail "x") initState).1.schemaItems =
      sortStrings ((["public", "pg_toast", "analytics"] : List String).filter
        (fun n => decide (n ∉ excludedSchemas))) ∧
    List.Sorted (fun a b => leStr a b = true)
      (loadSchemas (SchemasResp.rows ((["analytics", "public"] : List String).map Except.ok) none)
        (TablesResp.rows []) (ColsResp.rows []) (QueryResponse.fail "x") initState).1.schemaItems ∧
    (∀ n, n ∈ (loadSchemas
        (SchemasResp.rows ((["analytics", "public"] : List String).map Except.ok) none)
        (TablesResp.rows []) (ColsResp.rows [])
        (QueryResponse.fail "x") initState).1.schemaItems ↔
      (n ∈ (["public", "pg_toast", "analytics"] : List String) ∧ n ∉ excludedSchemas)) ∧
    (∀ s0 rest, (loadSchemas
        (SchemasResp.rows ((["analytics", "public"] : List String).map Except.ok) none)
        (TablesResp.rows []) (ColsResp.rows [])
        (QueryResponse.fail "x") initState).1.schemaItems = s0 :: rest →
      (loadSchemas (SchemasResp.rows ((["analytics", "public"] : List String).map Except.ok) none)
        (TablesResp.rows []) (ColsResp.rows [])
        (QueryResponse.fail "x") initState).1.currentSchema = s0 ∧
      (∀ x ∈ (loadSchemas
          (SchemasResp.rows ((["analytics", "public"] : List String).map Except.ok) none)
          (TablesResp.rows []) (ColsResp.rows [])
          (QueryResponse.fail "x") initState).1.schemaItems, leStr s0 x = true) ∧
      (tablesSQL, [s0]) ∈ (loadSchemas
        (SchemasResp.rows ((["analytics", "public"] : List String).map Except.ok) none)
        (TablesResp.rows []) (ColsResp.rows [])
        (QueryResponse.fail "x") initState).1.issued) :=
  C9_loadSchemas ["public", "pg_toast", "analytics"] ["analytics", "public"]
    (TablesResp.rows []) (ColsResp.rows []) (QueryResponse.fail "x") initState
    (loadSchemas (SchemasResp.rows ((["analytics", "public"] : List String).map Except.ok) none)
      (TablesResp.rows []) (ColsResp.rows []) (QueryResponse.fail "x") initState)
    rfl (by decide)

/-- Claim C10: an ad-hoc input that is empty, or only whitespace, after
trimming makes `runAdhocQuery` a complete no-op -- the returned state
is the input state, so no query is issued, no notification is posted,
and the displayed result and navigation state are unchanged. -/
theorem C10_blank_noop (q : String) (resp : QueryResponse) (st : AppState)
    (h : trimSpace q = "") : runAdhocQuery q resp st = st := by
  simp only [runAdhocQuery]
  rw [h]
  rfl

/-- Witness for claim C10 at a whitespace-only input. -/
theorem C10_witness :
    trimSpace "   " = "" ∧
    runAdhocQuery "   " (QueryResponse.fail "x") initState = initState :=
  ⟨by decide, C10_blank_noop "   " (QueryResponse.fail "x") initState (by decide)⟩

end DBTui
